import Mathlib

/-!
Verification of the stackmate dependency resolution and compatibility engine
(`stackmate/utils/dependency_manager.py`, with the simplified variant in
`stackmate/dependency_manager.py`).

The engine is embedded shallowly: Python dictionaries become association
lists (`List (String × α)`), registry access becomes a pure function
`String → Option PackageInfo` (`none` models a failed / 404 fetch, which the
code turns into `None`), and the single statement of the engine that can
raise an uncaught exception (`pkg_info["versions"]` in the second pass of
`check_compatibility`) is modelled with `Except`.

The engine delegates version parsing and range matching to the external
`semver` library, whose sources are not part of the repository; those two
functions are modelled from the spec, as marked on their doc comments.
-/

set_option maxRecDepth 4096

/-! ### Character-list string helpers -/

/-- Split a character list at every occurrence of the separator, mirroring
Python `str.split(sep)` for a one-character separator (empty pieces kept). -/
def splitOnChar (sep : Char) (cs : List Char) : List (List Char) :=
  cs.foldr
    (fun c acc =>
      match acc with
      | [] => [[c]]
      | g :: rest => if c = sep then [] :: g :: rest else (c :: g) :: rest)
    [[]]

/-- Remove every occurrence of one character, mirroring Python
`str.replace(c, "")`. -/
def removeAllChar (c : Char) (s : String) : String :=
  String.mk (s.toList.filter (fun d => d ≠ c))

/-- Does the second list start with the first one? -/
def listStartsWith : List Char → List Char → Bool
  | [], _ => true
  | _ :: _, [] => false
  | a :: as, b :: bs => a = b && listStartsWith as bs

/-- Does the haystack contain the needle as a contiguous run?  Mirrors the
Python substring test `needle in hay`. -/
def listContainsRun (needle : List Char) : List Char → Bool
  | [] => listStartsWith needle []
  | c :: t => listStartsWith needle (c :: t) || listContainsRun needle t

/-- Python `needle in hay` on strings. -/
def strContains (needle hay : String) : Bool :=
  listContainsRun needle.toList hay.toList

/-- Python `str.lower()` (the engine only ever lowercases ASCII warnings). -/
def strLower (s : String) : String :=
  String.mk (s.toList.map Char.toLower)

/-- Decimal value of a digit list (callers guarantee the digits). -/
def digitsToNat (cs : List Char) : Nat :=
  cs.foldl (fun n c => n * 10 + (c.toNat - 48)) 0

/-! ### Semantic versions

The engine uses `semver.VersionInfo.parse` and comparison of parsed
versions.  A version is `major.minor.patch` with an optional dot-separated
prerelease; build metadata is validated by the parser but ignored by
comparison, so it is not stored. -/

/-- One prerelease identifier: purely numeric identifiers compare
numerically and below alphanumeric ones, per semver precedence. -/
inductive PreId where
  | num (n : Nat)
  | str (s : String)
  deriving Repr, DecidableEq

structure SemVer where
  major : Nat
  minor : Nat
  patch : Nat
  prerelease : List PreId
  deriving Repr, DecidableEq

def SemVer.zero : SemVer := ⟨0, 0, 0, []⟩

def PreId.comparePre : PreId → PreId → Ordering
  | .num a, .num b => compare a b
  | .num _, .str _ => .lt
  | .str _, .num _ => .gt
  | .str a, .str b => compare a b

def comparePreList : List PreId → List PreId → Ordering
  | [], [] => .eq
  | [], _ :: _ => .lt
  | _ :: _, [] => .gt
  | a :: as, b :: bs =>
    match a.comparePre b with
    | .eq => comparePreList as bs
    | o => o

/-- Semver precedence: compare major, minor, patch numerically; a version
with a prerelease precedes the same version without one. -/
def SemVer.comparev (a b : SemVer) : Ordering :=
  match compare a.major b.major with
  | .eq =>
    match compare a.minor b.minor with
    | .eq =>
      match compare a.patch b.patch with
      | .eq =>
        match a.prerelease, b.prerelease with
        | [], [] => .eq
        | [], _ :: _ => .gt
        | _ :: _, [] => .lt
        | x, y => comparePreList x y
      | o => o
    | o => o
  | o => o

def svLt (a b : SemVer) : Bool := a.comparev b = Ordering.lt

/-- A numeric component of the version core: digits with no leading zero. -/
def isNumCore : List Char → Bool
  | [] => false
  | [c] => c.isDigit
  | c :: rest => c.isDigit && c ≠ '0' && rest.all (·.isDigit)

def parseNumCore (cs : List Char) : Option Nat :=
  if isNumCore cs then some (digitsToNat cs) else none

/-- Characters allowed in prerelease / build identifiers. -/
def isIdentChar (c : Char) : Bool := c.isAlphanum || c = '-'

/-- One prerelease identifier: numeric (no leading zero) or alphanumeric. -/
def parsePreId (cs : List Char) : Option PreId :=
  if cs.isEmpty then none
  else if cs.all (·.isDigit) then
    if isNumCore cs then some (.num (digitsToNat cs)) else none
  else if cs.all isIdentChar then some (.str (String.mk cs))
  else none

/-- One build identifier: nonempty run of alphanumerics and hyphens. -/
def isBuildId (cs : List Char) : Bool := !cs.isEmpty && cs.all isIdentChar

/-- Parse `major.minor.patch[-prerelease]` from a character list (build
metadata already removed). -/
def parseNoBuild (cs : List Char) : Option SemVer :=
  match splitOnChar '-' cs with
  | [] => none
  | core :: rest =>
    match splitOnChar '.' core with
    | [ma, mi, pa] => do
      let major ← parseNumCore ma
      let minor ← parseNumCore mi
      let patch ← parseNumCore pa
      if rest.isEmpty then
        some ⟨major, minor, patch, []⟩
      else do
        let ids ← (splitOnChar '.' (List.intercalate ['-'] rest)).mapM parsePreId
        some ⟨major, minor, patch, ids⟩
    | _ => none

/-- Modelled from the spec: `semver.VersionInfo.parse` of the external
`semver` library (not part of the repository).  Accepts strict
`major.minor.patch[-prerelease][+build]` versions and rejects everything
else; build metadata is validated and discarded because version
precedence ignores it. -/
def semverParse (s : String) : Option SemVer :=
  match splitOnChar '+' s.toList with
  | [core] => parseNoBuild core
  | [core, build] =>
    if (splitOnChar '.' build).all isBuildId then parseNoBuild core else none
  | _ => none

/-- Render a version back to a string, as the engine does when it builds a
range such as `">=" + str(base_version) + " <2.0.0"`. -/
def SemVer.render (v : SemVer) : String :=
  toString v.major ++ "." ++ toString v.minor ++ "." ++ toString v.patch ++
    (if v.prerelease.isEmpty then ""
     else "-" ++ String.intercalate "."
        (v.prerelease.map (fun i => match i with
          | .num n => toString n
          | .str s => s)))

/-! ### Range matching -/

inductive CmpOp where
  | ge | le | eqv | ne | gt | lt
  deriving Repr, DecidableEq

def dropChars (n : Nat) (s : String) : String := String.mk (s.toList.drop n)

/-- Parse one comparator token of a match expression: an operator
(`>=`, `<=`, `==`, `!=`, `>`, `<`) followed by a version, or a bare
version (equality). -/
def parseCmp (tok : String) : Option (CmpOp × SemVer) :=
  if listStartsWith ['>', '='] tok.toList then
    (semverParse (dropChars 2 tok)).map (fun v => (CmpOp.ge, v))
  else if listStartsWith ['<', '='] tok.toList then
    (semverParse (dropChars 2 tok)).map (fun v => (CmpOp.le, v))
  else if listStartsWith ['=', '='] tok.toList then
    (semverParse (dropChars 2 tok)).map (fun v => (CmpOp.eqv, v))
  else if listStartsWith ['!', '='] tok.toList then
    (semverParse (dropChars 2 tok)).map (fun v => (CmpOp.ne, v))
  else if listStartsWith ['>'] tok.toList then
    (semverParse (dropChars 1 tok)).map (fun v => (CmpOp.gt, v))
  else if listStartsWith ['<'] tok.toList then
    (semverParse (dropChars 1 tok)).map (fun v => (CmpOp.lt, v))
  else
    match tok.toList.head? with
    | some c => if c.isDigit then (semverParse tok).map (fun v => (CmpOp.eqv, v)) else none
    | none => none

def cmpHolds (v : SemVer) : CmpOp × SemVer → Bool
  | (.ge, w) => v.comparev w ≠ Ordering.lt
  | (.le, w) => v.comparev w ≠ Ordering.gt
  | (.eqv, w) => v.comparev w = Ordering.eq
  | (.ne, w) => v.comparev w ≠ Ordering.eq
  | (.gt, w) => v.comparev w = Ordering.gt
  | (.lt, w) => v.comparev w = Ordering.lt

/-- Modelled from the spec: `semver.match` of the external `semver` library
(not part of the repository), with the range semantics §4.2 of the spec
describes — a match expression is a space-separated conjunction of
comparators, a single comparator, or a bare version meaning exact-match;
`none` models the `ValueError` the library raises on an expression or
version it cannot parse, which every caller in the engine catches. -/
def semverMatchv (v : String) (expr : String) : Option Bool := do
  let sv ← semverParse v
  let toks := (splitOnChar ' ' expr.toList).filter (fun t => !t.isEmpty)
  if toks.isEmpty then none
  else do
    let cmps ← toks.mapM (fun t => parseCmp (String.mk t))
    some (cmps.all (cmpHolds sv))

example : semverParse "5.8.0" = some ⟨5, 8, 0, []⟩ := by decide
example : semverParse "05.8.0" = none := by decide
example : semverParse "1.0.0-alpha.1" = some ⟨1, 0, 0, [.str "alpha", .num 1]⟩ := by decide
example : semverParse "1.0.0+b.5" = some ⟨1, 0, 0, []⟩ := by decide
example : semverParse "latest" = none := by decide
example : semverMatchv "5.8.5" ">=5.8.0 <5.9.0" = some true := by decide
example : semverMatchv "6.0.0" ">=5.8.0 <6.0.0" = some false := by decide
example : semverMatchv "1.0.0" "1.0.0" = some true := by decide
example : semverMatchv "1.0.0" ">=oops" = none := by decide
example : semverMatchv "1.0.0" "latest" = none := by decide
example : svLt ⟨5, 8, 5, []⟩ ⟨5, 9, 0, []⟩ = true := by decide
example : svLt ⟨1, 0, 0, []⟩ ⟨1, 0, 0, [.str "alpha"]⟩ = false := by decide

/-! ### Dictionaries

Python dictionaries become association lists with the keys in insertion
order; assignment to an existing key keeps its position, assignment to a
fresh key appends. -/

def lookupA {α : Type} : List (String × α) → String → Option α
  | [], _ => none
  | (k, v) :: rest, key => if k = key then some v else lookupA rest key

def setA {α : Type} : List (String × α) → String → α → List (String × α)
  | [], key, v => [(key, v)]
  | (k, w) :: rest, key, v =>
    if k = key then (key, v) :: rest else (k, w) :: setA rest key v

def keysA {α : Type} (d : List (String × α)) : List String := d.map Prod.fst

/-! ### Registry data model

`PackageInfo` is the JSON object a successful registry fetch parses:
the `versions` field is `none` when the object lacks a `"versions"` key,
and `otherKeys` records whether the object has any other key, which is
what Python truthiness of the dictionary observes. -/

structure Manifest where
  peerDependencies : List (String × String)
  deriving Repr, DecidableEq

structure PackageInfo where
  otherKeys : Bool
  versions : Option (List (String × Manifest))
  deriving Repr, DecidableEq

/-- Python truthiness of the metadata dictionary (`if not package_info`). -/
def PackageInfo.truthy (p : PackageInfo) : Bool :=
  p.versions.isSome || p.otherKeys

/-- What `get_package_info` answers for each package during one analysis:
`none` models a failed fetch (non-200 status or a raised exception). -/
def Registry : Type := String → Option PackageInfo

abbrev DepMap := List (String × String)

/-! ### The engine (`stackmate/utils/dependency_manager.py`) -/

/-- `DependencyManager.parse_version`: strip every `^` and `~` character,
then parse. -/
def parse_version (version : String) : Option SemVer :=
  semverParse (removeAllChar '~' (removeAllChar '^' version))

/-- Python `max(versions, key=parse)` — keeps the first element whose key
is maximal, replacing only on strictly greater. -/
def maxByParsed (key : String → SemVer) : List String → Option String
  | [] => none
  | x :: xs => some (xs.foldl (fun acc v => if svLt (key acc) (key v) then v else acc) x)

/-- Python `min(versions, key=f)` for a natural-number key — keeps the
first element whose key is minimal. -/
def minByNat (key : String → Nat) : List String → Option String
  | [] => none
  | x :: xs => some (xs.foldl (fun acc v => if key v < key acc then v else acc) x)

/-- `abs(a - b)` on the two major numbers. -/
def natDist (a b : Nat) : Nat := if a ≤ b then b - a else a - b

/-- The `key=lambda v: self.parse_version(v) or semver.VersionInfo(0)`
selector. -/
def parsedOrZero (v : String) : SemVer := (parse_version v).getD SemVer.zero

/-- `DependencyManager.resolve_version`: resolve the best matching version
for one package, returning the specifier unchanged on any failure. -/
def resolve_version (reg : Registry) (package_name : String) (version_spec : String) : String :=
  match reg package_name with
  | none => version_spec
  | some package_info =>
    if !package_info.truthy then version_spec
    else
      match package_info.versions with
      | none => version_spec
      | some vers =>
        let available_versions := vers.map Prod.fst
        let range? : Option String :=
          if listStartsWith ['^'] version_spec.toList then
            match parse_version version_spec with
            | some b => some (">=" ++ b.render ++ " <" ++ toString (b.major + 1) ++ ".0.0")
            | none => none
          else if listStartsWith ['~'] version_spec.toList then
            match parse_version version_spec with
            | some b =>
              some (">=" ++ b.render ++ " <" ++ toString b.major ++ "." ++
                toString (b.minor + 1) ++ ".0")
            | none => none
          else some version_spec
        match range? with
        | none => version_spec
        | some version_range =>
          let matching_versions :=
            available_versions.filter (fun v => (semverMatchv v version_range).getD false)
          match maxByParsed parsedOrZero matching_versions with
          | none => version_spec
          | some latest_version => "^" ++ latest_version

/-- The pass-1 warning text. -/
def updateWarning (pkg old new : String) : String :=
  "Updated " ++ pkg ++ " from " ++ old ++ " to " ++ new ++ " for better compatibility"

/-- One entry of the first pass: resolve it, warn when the resolved
specifier differs from the input. -/
def pass1step (reg : Registry) (acc : DepMap × List String) (pv : String × String) :
    DepMap × List String :=
  let resolved := resolve_version reg pv.1 pv.2
  let upd := setA acc.1 pv.1 resolved
  if resolved = pv.2 then (upd, acc.2)
  else (upd, acc.2 ++ [updateWarning pv.1 pv.2 resolved])

/-- First pass of `check_compatibility`. -/
def pass1 (reg : Registry) (deps : DepMap) : DepMap × List String :=
  deps.foldl (pass1step reg) ([], [])

/-- The peer loop of pass 2 for one package: the whole body runs inside a
`try` whose handler appends the could-not-verify warning, so a missing
`versions` key in the peer metadata degrades to that warning. -/
def peerStep (reg : Registry) (pkg : String) (st : DepMap × List String)
    (peer : String × String) : DepMap × List String :=
  match lookupA st.1 peer.1 with
      | none => st
      | some peerSpec =>
        let current_version := removeAllChar '^' peerSpec
        match semverMatchv current_version peer.2 with
        | some true => st
        | none =>
          (st.1, st.2 ++
            ["Could not verify compatibility between " ++ pkg ++ " and " ++ peer.1])
        | some false =>
          match reg peer.1 with
          | none => st
          | some peer_info =>
            if !peer_info.truthy then st
            else
              match peer_info.versions with
              | none =>
                (st.1, st.2 ++
                  ["Could not verify compatibility between " ++ pkg ++ " and " ++ peer.1])
              | some pvers =>
                let matching := (pvers.map Prod.fst).filter
                  (fun v => (semverMatchv v peer.2).getD false)
                match maxByParsed parsedOrZero matching with
                | none => st
                | some best =>
                  (setA st.1 peer.1 ("^" ++ best), st.2 ++
                    ["Updated " ++ peer.1 ++ " to " ++ best ++
                      " to satisfy peer dependency requirement from " ++ pkg ++
                      " (" ++ peer.2 ++ ")"])

def processPeers (reg : Registry) (pkg : String) (peers : List (String × String))
    (st : DepMap × List String) : DepMap × List String :=
  peers.foldl (peerStep reg pkg) st

/-- One package of pass 2.  The subscript `pkg_info["versions"]` is the one
uncaught exception site of the engine: metadata that is truthy but has no
`"versions"` key raises `KeyError`, modelled as `Except.error`. -/
def pass2step (reg : Registry) (st : DepMap × List String) (pkg : String) :
    Except String (DepMap × List String) :=
  let version := (lookupA st.1 pkg).getD ""
  match reg pkg with
  | none => .ok st
  | some pkg_info =>
    if !pkg_info.truthy then .ok st
    else
      let version_without_caret := removeAllChar '^' version
      match pkg_info.versions with
      | none => .error "KeyError: versions"
      | some vers =>
        match lookupA vers version_without_caret with
        | none =>
          let matching := (vers.map Prod.fst).filter
            (fun v => (semverMatchv v (">=" ++ version_without_caret)).getD false)
          match minByNat
              (fun v => natDist (parsedOrZero v).major
                (parsedOrZero version_without_caret).major) matching with
          | none => .ok st
          | some closest =>
            .ok (setA st.1 pkg ("^" ++ closest), st.2 ++
              ["Updated " ++ pkg ++ " to closest available version: " ++ closest])
        | some manifest =>
          .ok (processPeers reg pkg manifest.peerDependencies st)

/-- Second pass of `check_compatibility`: iterate the packages of the
resolved map in order, reading each entry's value from the live map. -/
def pass2 (reg : Registry) (updated : DepMap) (warnings : List String) :
    Except String (DepMap × List String) :=
  (keysA updated).foldlM (pass2step reg) (updated, warnings)

/-- `DependencyManager.check_compatibility`. -/
def check_compatibility (reg : Registry) (dependencies : DepMap) :
    Except String (DepMap × List String) :=
  let p := pass1 reg dependencies
  pass2 reg p.1 p.2

structure AnalysisReport where
  updated_dependencies : DepMap
  compatibility_warnings : List String
  version_updates : List String
  security_warnings : List String
  recommendations : List String
  deriving Repr, DecidableEq

def monorepoRec : String :=
  "Consider using a monorepo setup with tools like Turborepo for better dependency management"

def typesRec : String :=
  "Add corresponding DefinitelyTyped packages (@types/*) for better TypeScript support"

/-- `DependencyManager.analyze_dependencies` (an exception raised by
`check_compatibility` propagates to the caller). -/
def analyze_dependencies (reg : Registry) (dependencies : DepMap) :
    Except String AnalysisReport :=
  match check_compatibility reg dependencies with
  | .error e => .error e
  | .ok (updated_deps, warnings) =>
    let recs1 : List String := if updated_deps.length > 10 then [monorepoRec] else []
    let typescript_deps := dependencies.any (fun p => listStartsWith "@types/".toList p.1.toList)
    let recs2 :=
      if !typescript_deps && (lookupA dependencies "typescript").isSome then recs1 ++ [typesRec]
      else recs1
    .ok
      { updated_dependencies := updated_deps
        compatibility_warnings := warnings.filter (fun w => strContains "compatibility" (strLower w))
        version_updates := warnings.filter (fun w => strContains "updated" (strLower w))
        security_warnings := []
        recommendations := recs2 }

instance exceptDecEq {ε α : Type} [DecidableEq ε] [DecidableEq α] : DecidableEq (Except ε α)
  | .error x, .error y =>
    if h : x = y then .isTrue (congrArg Except.error h)
    else .isFalse (fun hc => h (Except.error.inj hc))
  | .error _, .ok _ => .isFalse (fun hc => Except.noConfusion hc)
  | .ok _, .error _ => .isFalse (fun hc => Except.noConfusion hc)
  | .ok x, .ok y =>
    if h : x = y then .isTrue (congrArg Except.ok h)
    else .isFalse (fun hc => h (Except.ok.inj hc))

/-! ### Concrete fixtures for the testable scenarios -/

def noPeers : Manifest := ⟨[]⟩

/-- Registry of the end-to-end scenario: `next` at 14.0.0 / 14.1.0 with no
peer dependencies, `react` at 18.2.0. -/
def regC1 : Registry := fun n =>
  if n = "next" then some ⟨false, some [("14.0.0", noPeers), ("14.1.0", noPeers)]⟩
  else if n = "react" then some ⟨false, some [("18.2.0", noPeers)]⟩
  else none

def depsC1 : DepMap := [("next", "^14.0.0"), ("react", "^18.2.0")]

def warnC1 : String := updateWarning "next" "^14.0.0" "^14.1.0"

/-- Registry of the caret / tilde resolution scenario. -/
def regC4 : Registry := fun n =>
  if n = "pkg" then
    some ⟨false, some [("5.8.0", noPeers), ("5.8.5", noPeers), ("5.9.0", noPeers), ("6.0.0", noPeers)]⟩
  else none

/-- Registry of the peer reconciliation scenario: `a` at 1.0.0 requiring
peer `b` at `>=2.0.0`, `b` offered at 1.0.0 / 2.0.0 / 2.1.0. -/
def regC5 : Registry := fun n =>
  if n = "a" then some ⟨false, some [("1.0.0", ⟨[("b", ">=2.0.0")]⟩)]⟩
  else if n = "b" then
    some ⟨false, some [("1.0.0", noPeers), ("2.0.0", noPeers), ("2.1.0", noPeers)]⟩
  else none

def depsC5 : DepMap := [("a", "^1.0.0"), ("b", "^1.0.0")]

/-- Registry whose metadata for `a` is a non-empty object without a
`"versions"` key. -/
def regC2 : Registry := fun n =>
  if n = "a" then some ⟨true, none⟩ else none

/-- Registry of the closest-version fallback scenario: the resolved key
1.0.0 of `a` is absent, the substitute 2.0.0 declares a peer constraint on
`b` that is not satisfied. -/
def regC6 : Registry := fun n =>
  if n = "a" then some ⟨false, some [("2.0.0", ⟨[("b", ">=2.0.0")]⟩)]⟩
  else if n = "b" then some ⟨false, some [("1.0.0", noPeers), ("2.0.0", noPeers)]⟩
  else none

def depsC6 : DepMap := [("a", "^1.0.0"), ("b", "^1.0.0")]

example :
    check_compatibility regC6 depsC6 =
      .ok ([("a", "^2.0.0"), ("b", "^1.0.0")],
        ["Updated a to closest available version: 2.0.0"]) := by decide

/-- Registry of the exact-pin no-op scenario. -/
def regC7 : Registry := fun n =>
  if n = "a" then some ⟨false, some [("1.0.0", noPeers)]⟩ else none

example :
    check_compatibility regC7 [("a", "1.0.0")] =
      .ok ([("a", "^1.0.0")], [updateWarning "a" "1.0.0" "^1.0.0"]) := by decide

/-! ### Pass-2 variants for the closest-version fallback claim -/

def closestWarning (pkg closest : String) : String :=
  "Updated " ++ pkg ++ " to closest available version: " ++ closest

/-- Modelled from the claim under test: one package of pass 2 where, after
a substitute version is adopted, "that version's declared peer
dependencies are then read and processed". -/
def pass2step_claimC6 (reg : Registry) (st : DepMap × List String) (pkg : String) :
    Except String (DepMap × List String) :=
  let version := (lookupA st.1 pkg).getD ""
  match reg pkg with
  | none => .ok st
  | some pkg_info =>
    if !pkg_info.truthy then .ok st
    else
      let version_without_caret := removeAllChar '^' version
      match pkg_info.versions with
      | none => .error "KeyError: versions"
      | some vers =>
        match lookupA vers version_without_caret with
        | none =>
          let matching := (vers.map Prod.fst).filter
            (fun v => (semverMatchv v (">=" ++ version_without_caret)).getD false)
          match minByNat
              (fun v => natDist (parsedOrZero v).major
                (parsedOrZero version_without_caret).major) matching with
          | none => .ok st
          | some closest =>
            let st2 := (setA st.1 pkg ("^" ++ closest), st.2 ++ [closestWarning pkg closest])
            match lookupA vers closest with
            | none => .ok st2
            | some manifest => .ok (processPeers reg pkg manifest.peerDependencies st2)
        | some manifest =>
          .ok (processPeers reg pkg manifest.peerDependencies st)

def pass2_claimC6 (reg : Registry) (updated : DepMap) (warnings : List String) :
    Except String (DepMap × List String) :=
  (keysA updated).foldlM (pass2step_claimC6 reg) (updated, warnings)

/-- `check_compatibility` as claim C6 describes pass 2. -/
def check_compatibility_claimC6 (reg : Registry) (dependencies : DepMap) :
    Except String (DepMap × List String) :=
  let p := pass1 reg dependencies
  pass2_claimC6 reg p.1 p.2

/-- Modelled from the amended claim: among the versions the registry lists
that are at least the missing version key, the one whose major version is
numerically closest to the key's major (first listed on ties). -/
def closestSubstitute (vers : List (String × Manifest)) (key : String) : Option String :=
  minByNat (fun v => natDist (parsedOrZero v).major (parsedOrZero key).major)
    ((vers.map Prod.fst).filter (fun v => (semverMatchv v (">=" ++ key)).getD false))

/-- Modelled from the amended claim: one package of pass 2 where the
substitute, when one exists, is adopted with a warning and peer processing
for the package is skipped; peer dependencies are read only when the exact
version key is listed. -/
def pass2step_amendedC6 (reg : Registry) (st : DepMap × List String) (pkg : String) :
    Except String (DepMap × List String) :=
  let version := (lookupA st.1 pkg).getD ""
  match reg pkg with
  | none => .ok st
  | some pkg_info =>
    if !pkg_info.truthy then .ok st
    else
      let version_without_caret := removeAllChar '^' version
      match pkg_info.versions with
      | none => .error "KeyError: versions"
      | some vers =>
        match lookupA vers version_without_caret with
        | none =>
          match closestSubstitute vers version_without_caret with
          | none => .ok st
          | some closest =>
            .ok (setA st.1 pkg ("^" ++ closest), st.2 ++ [closestWarning pkg closest])
        | some manifest =>
          .ok (processPeers reg pkg manifest.peerDependencies st)

def pass2_amendedC6 (reg : Registry) (updated : DepMap) (warnings : List String) :
    Except String (DepMap × List String) :=
  (keysA updated).foldlM (pass2step_amendedC6 reg) (updated, warnings)

/-- `check_compatibility` as the amended claim describes pass 2. -/
def check_compatibility_amendedC6 (reg : Registry) (dependencies : DepMap) :
    Except String (DepMap × List String) :=
  let p := pass1 reg dependencies
  pass2_amendedC6 reg p.1 p.2

example :
    check_compatibility_claimC6 regC6 depsC6 =
      .ok ([("a", "^2.0.0"), ("b", "^2.0.0")],
        ["Updated a to closest available version: 2.0.0",
          "Updated b to 2.0.0 to satisfy peer dependency requirement from a (>=2.0.0)"]) := by
  decide

/-! ### The simplified variant (`stackmate/dependency_manager.py`) -/

/-- The simple `DependencyManager.analyze_dependencies`: every entry is
copied into `updated_dependencies` unchanged and `compatibility_warnings`
stays empty.  (The known-good scan of the source alters no output: its
inner `continue` statements end loop bodies that do nothing afterwards, and
nothing is ever appended to the warnings.) -/
def analyze_dependencies_simple (dependencies : DepMap) : DepMap × List String :=
  (dependencies.foldl (fun acc pv => setA acc pv.1 pv.2) [], [])

/-! ### The registry client cache (`DependencyManager.get_package_info`) -/

structure CacheEntry where
  data : PackageInfo
  timestamp : Nat
  deriving Repr, DecidableEq

abbrev Cache := List (String × CacheEntry)

/-- The HTTP side of one fetch: what the registry would answer at a given
time (`none` models a non-200 response or a network failure). -/
def Network : Type := String → Nat → Option PackageInfo

structure FetchResult where
  result : Option PackageInfo
  cache : Cache
  networkCalls : Nat
  deriving Repr, DecidableEq

/-- `self.cache_ttl = timedelta(hours=1)`, in seconds. -/
def cacheTTL : Nat := 3600

/-- The fetch half of `get_package_info`: a successful (200) response is
stored in the cache with the current timestamp; a failed one is returned
as `None` without touching the cache.  Either way one network call
happens. -/
def fetchFromNet (net : Network) (now : Nat) (cache : Cache) (package_name : String) :
    FetchResult :=
  match net package_name now with
  | some data => ⟨some data, setA cache package_name ⟨data, now⟩, 1⟩
  | none => ⟨none, cache, 1⟩

/-- `DependencyManager.get_package_info` with the cache and clock explicit:
a cache entry younger than the TTL is returned without a network call,
anything else falls through to one fetch. -/
def get_package_info (net : Network) (now : Nat) (cache : Cache) (package_name : String) :
    FetchResult :=
  match lookupA cache package_name with
  | some entry =>
    if now - entry.timestamp < cacheTTL then ⟨some entry.data, cache, 0⟩
    else fetchFromNet net now cache package_name
  | none => fetchFromNet net now cache package_name

/-! ### Dictionary lemmas -/

@[simp] theorem keysA_nil {α : Type} : keysA ([] : List (String × α)) = [] := rfl

@[simp] theorem keysA_cons {α : Type} (p : String × α) (d : List (String × α)) :
    keysA (p :: d) = p.1 :: keysA d := rfl

@[simp] theorem keysA_append {α : Type} (d e : List (String × α)) :
    keysA (d ++ e) = keysA d ++ keysA e := List.map_append _ _ _

theorem lookupA_isSome_iff {α : Type} (d : List (String × α)) (k : String) :
    (lookupA d k).isSome = true ↔ k ∈ keysA d := by
  induction d with
  | nil => simp [lookupA]
  | cons hd tl ih =>
    by_cases h : hd.1 = k
    · simp [lookupA, h]
    · rw [lookupA, if_neg h, keysA_cons, List.mem_cons, ih]
      constructor
      · exact Or.inr
      · rintro (h1 | h1)
        · exact absurd h1.symm h
        · exact h1

theorem lookupA_mem {α : Type} (d : List (String × α)) (k : String) (v : α)
    (h : lookupA d k = some v) : (k, v) ∈ d := by
  induction d with
  | nil => simp [lookupA] at h
  | cons hd tl ih =>
    obtain ⟨a, b⟩ := hd
    rw [lookupA] at h
    by_cases hk : a = k
    · subst hk
      rw [if_pos rfl, Option.some.injEq] at h
      subst h
      exact List.mem_cons_self _ _
    · rw [if_neg hk] at h
      exact List.mem_cons_of_mem _ (ih h)

theorem setA_of_not_mem {α : Type} (d : List (String × α)) (k : String) (v : α)
    (h : k ∉ keysA d) : setA d k v = d ++ [(k, v)] := by
  induction d with
  | nil => simp [setA]
  | cons hd tl ih =>
    rw [keysA_cons, List.mem_cons] at h
    push_neg at h
    rw [setA, if_neg (fun he => h.1 he.symm), List.cons_append, ih h.2]

theorem keysA_setA_of_mem {α : Type} (d : List (String × α)) (k : String) (v : α)
    (h : k ∈ keysA d) : keysA (setA d k v) = keysA d := by
  induction d with
  | nil => simp at h
  | cons hd tl ih =>
    by_cases hk : hd.1 = k
    · rw [setA, if_pos hk, keysA_cons, keysA_cons, hk]
    · rw [keysA_cons, List.mem_cons] at h
      rcases h with h | h
      · exact absurd h.symm hk
      · rw [setA, if_neg hk, keysA_cons, keysA_cons, ih h]

theorem mem_keysA_setA {α : Type} (d : List (String × α)) (k : String) (v : α) (x : String) :
    x ∈ keysA (setA d k v) ↔ x ∈ keysA d ∨ x = k := by
  induction d with
  | nil => simp [setA]
  | cons hd tl ih =>
    by_cases hk : hd.1 = k
    · rw [setA, if_pos hk, keysA_cons, keysA_cons, hk]
      simp only [List.mem_cons]
      tauto
    · rw [setA, if_neg hk, keysA_cons, keysA_cons]
      simp only [List.mem_cons]
      rw [ih]
      tauto

/-! ### Key preservation through the two passes -/

theorem pass1step_fst (reg : Registry) (acc : DepMap × List String) (pv : String × String) :
    (pass1step reg acc pv).1 = setA acc.1 pv.1 (resolve_version reg pv.1 pv.2) := by
  by_cases h : resolve_version reg pv.1 pv.2 = pv.2 <;> simp [pass1step, h]

theorem mem_keysA_foldl_pass1 (reg : Registry) (l : DepMap) :
    ∀ (acc : DepMap × List String) (x : String),
      x ∈ keysA (l.foldl (pass1step reg) acc).1 ↔ x ∈ keysA acc.1 ∨ x ∈ keysA l := by
  induction l with
  | nil => simp
  | cons pv tl ih =>
    intro acc x
    rw [List.foldl_cons, ih, pass1step_fst, mem_keysA_setA, keysA_cons, List.mem_cons]
    tauto

theorem mem_keysA_pass1 (reg : Registry) (deps : DepMap) (x : String) :
    x ∈ keysA (pass1 reg deps).1 ↔ x ∈ keysA deps := by
  rw [pass1, mem_keysA_foldl_pass1]
  simp

theorem peerStep_fst_keys (reg : Registry) (pkg : String) (st : DepMap × List String)
    (peer : String × String) : keysA (peerStep reg pkg st peer).1 = keysA st.1 := by
  simp only [peerStep]
  split
  · rfl
  next peerSpec hlk =>
    have hmem : peer.1 ∈ keysA st.1 := by
      rw [← lookupA_isSome_iff, hlk]
      rfl
    split
    · rfl
    · rfl
    · split
      · rfl
      next peer_info hreg =>
        split
        · rfl
        · split
          · rfl
          next pvers hv =>
            split
            · rfl
            next best hmax =>
              exact keysA_setA_of_mem st.1 peer.1 ("^" ++ best) hmem

theorem foldl_peerStep_fst_keys (reg : Registry) (pkg : String) (peers : List (String × String)) :
    ∀ st : DepMap × List String, keysA (peers.foldl (peerStep reg pkg) st).1 = keysA st.1 := by
  induction peers with
  | nil => intro st; rfl
  | cons p tl ih =>
    intro st
    rw [List.foldl_cons, ih, peerStep_fst_keys]

theorem processPeers_fst_keys (reg : Registry) (pkg : String) (peers : List (String × String))
    (st : DepMap × List String) : keysA (processPeers reg pkg peers st).1 = keysA st.1 :=
  foldl_peerStep_fst_keys reg pkg peers st

theorem pass2step_keys (reg : Registry) (st : DepMap × List String) (pkg : String)
    (out : DepMap × List String) (hmem : pkg ∈ keysA st.1)
    (hok : pass2step reg st pkg = .ok out) : keysA out.1 = keysA st.1 := by
  simp only [pass2step] at hok
  split at hok
  · cases hok
    rfl
  next pkg_info hreg =>
    split at hok
    · cases hok
      rfl
    · split at hok
      · cases hok
      next vers hv =>
        split at hok
        · split at hok
          · cases hok
            rfl
          next closest hmin =>
            cases hok
            exact keysA_setA_of_mem st.1 pkg ("^" ++ closest) hmem
        next manifest hlk =>
          cases hok
          exact processPeers_fst_keys reg pkg manifest.peerDependencies st

theorem foldlM_pass2step_keys (reg : Registry) (L : List String) :
    ∀ (st out : DepMap × List String),
      (∀ pkg ∈ L, pkg ∈ keysA st.1) →
      L.foldlM (pass2step reg) st = .ok out → keysA out.1 = keysA st.1 := by
  induction L with
  | nil =>
    intro st out _ hok
    cases hok
    rfl
  | cons p tl ih =>
    intro st out hL hok
    rw [List.foldlM_cons] at hok
    cases hstep : pass2step reg st p with
    | error e =>
      rw [hstep] at hok
      cases hok
    | ok st1 =>
      rw [hstep] at hok
      have hkeys : keysA st1.1 = keysA st.1 :=
        pass2step_keys reg st p st1 (hL p (List.mem_cons_self p tl)) hstep
      have htl : ∀ pkg ∈ tl, pkg ∈ keysA st1.1 := by
        intro pkg hp
        rw [hkeys]
        exact hL pkg (List.mem_cons_of_mem p hp)
      have := ih st1 out htl hok
      rw [this, hkeys]

/-! ### No-op lemmas: a fully satisfied map passes through unchanged -/

theorem peerStep_noop (reg : Registry) (pkg : String) (st : DepMap × List String)
    (peer : String × String)
    (h : ∀ cur, lookupA st.1 peer.1 = some cur →
      semverMatchv (removeAllChar '^' cur) peer.2 = some true) :
    peerStep reg pkg st peer = st := by
  simp only [peerStep]
  split
  · rfl
  next cur hlk =>
    rw [h cur hlk]

theorem foldl_peerStep_noop (reg : Registry) (pkg : String) (peers : List (String × String)) :
    ∀ st : DepMap × List String,
      (∀ peer ∈ peers, ∀ cur, lookupA st.1 peer.1 = some cur →
        semverMatchv (removeAllChar '^' cur) peer.2 = some true) →
      peers.foldl (peerStep reg pkg) st = st := by
  induction peers with
  | nil => intro st _; rfl
  | cons p tl ih =>
    intro st h
    rw [List.foldl_cons, peerStep_noop reg pkg st p (h p (List.mem_cons_self p tl))]
    exact ih st (fun peer hp => h peer (List.mem_cons_of_mem p hp))

theorem processPeers_noop (reg : Registry) (pkg : String) (peers : List (String × String))
    (st : DepMap × List String)
    (h : ∀ peer ∈ peers, ∀ cur, lookupA st.1 peer.1 = some cur →
      semverMatchv (removeAllChar '^' cur) peer.2 = some true) :
    processPeers reg pkg peers st = st :=
  foldl_peerStep_noop reg pkg peers st h

/-- The conditions under which pass 2 leaves one package alone: its
metadata is present, lists the stripped resolved version, and every peer
constraint on packages of the map is already satisfied. -/
def SatisfiedAt (reg : Registry) (deps : DepMap) (pkg : String) : Prop :=
  ∃ info vers manifest,
    reg pkg = some info ∧ info.versions = some vers ∧
    lookupA vers (removeAllChar '^' ((lookupA deps pkg).getD "")) = some manifest ∧
    ∀ peer ∈ manifest.peerDependencies, ∀ cur, lookupA deps peer.1 = some cur →
      semverMatchv (removeAllChar '^' cur) peer.2 = some true

theorem pass2step_noop (reg : Registry) (deps : DepMap) (ws : List String) (pkg : String)
    (h : SatisfiedAt reg deps pkg) : pass2step reg (deps, ws) pkg = .ok (deps, ws) := by
  obtain ⟨info, vers, manifest, hreg, hv, hlk, hpeers⟩ := h
  have htruthy : info.truthy = true := by
    rw [PackageInfo.truthy, hv]
    rfl
  simp only [pass2step, hreg, htruthy, hv, hlk, Bool.not_true, Bool.false_eq_true, if_false]
  rw [processPeers_noop reg pkg manifest.peerDependencies (deps, ws) hpeers]

theorem foldlM_pass2step_noop (reg : Registry) (deps : DepMap) (ws : List String) :
    ∀ L : List String,
      (∀ pkg ∈ L, SatisfiedAt reg deps pkg) →
      L.foldlM (pass2step reg) (deps, ws) = .ok (deps, ws) := by
  intro L
  induction L with
  | nil => intro _; rfl
  | cons p tl ih =>
    intro h
    rw [List.foldlM_cons, pass2step_noop reg deps ws p (h p (List.mem_cons_self p tl))]
    exact ih (fun pkg hp => h pkg (List.mem_cons_of_mem p hp))

/-! ### Copy lemmas: folds that rebuild a map with fresh keys -/

theorem foldl_pass1step_copy (reg : Registry) :
    ∀ (l : DepMap) (acc : DepMap) (ws : List String),
      (∀ pv ∈ l, resolve_version reg pv.1 pv.2 = pv.2) →
      (∀ k ∈ keysA l, k ∉ keysA acc) →
      (keysA l).Nodup →
      l.foldl (pass1step reg) (acc, ws) = (acc ++ l, ws) := by
  intro l
  induction l with
  | nil =>
    intro acc ws _ _ _
    simp
  | cons pv tl ih =>
    intro acc ws hres hfresh hnd
    have hstep : pass1step reg (acc, ws) pv = (acc ++ [pv], ws) := by
      have h1 : resolve_version reg pv.1 pv.2 = pv.2 := hres pv (List.mem_cons_self pv tl)
      have h2 : pv.1 ∉ keysA acc := hfresh pv.1 (by rw [keysA_cons]; exact List.mem_cons_self _ _)
      simp only [pass1step, h1, eq_self_iff_true, if_true]
      rw [setA_of_not_mem acc pv.1 pv.2 h2, Prod.mk.eta]
    rw [List.foldl_cons, hstep]
    rw [keysA_cons] at hfresh hnd
    have hnd' : (keysA tl).Nodup := hnd.of_cons
    have hfresh' : ∀ k ∈ keysA tl, k ∉ keysA (acc ++ [pv]) := by
      intro k hk
      rw [keysA_append, List.mem_append]
      rintro (hc | hc)
      · exact hfresh k (List.mem_cons_of_mem _ hk) hc
      · rw [keysA_cons, keysA_nil] at hc
        rcases List.mem_singleton.mp hc with h
        rw [List.nodup_cons] at hnd
        exact hnd.1 (h ▸ hk)
    have := ih (acc ++ [pv]) ws (fun q hq => hres q (List.mem_cons_of_mem pv hq)) hfresh' hnd'
    rw [this, List.append_assoc, List.singleton_append]

theorem pass1_copy (reg : Registry) (deps : DepMap)
    (hres : ∀ pv ∈ deps, resolve_version reg pv.1 pv.2 = pv.2)
    (hnd : (keysA deps).Nodup) : pass1 reg deps = (deps, []) := by
  rw [pass1]
  have := foldl_pass1step_copy reg deps [] [] hres (by simp) hnd
  rw [this, List.nil_append]

theorem foldl_copyStep (l : DepMap) :
    ∀ acc : DepMap,
      (∀ k ∈ keysA l, k ∉ keysA acc) →
      (keysA l).Nodup →
      l.foldl (fun acc pv => setA acc pv.1 pv.2) acc = acc ++ l := by
  induction l with
  | nil =>
    intro acc _ _
    simp
  | cons pv tl ih =>
    intro acc hfresh hnd
    rw [keysA_cons] at hfresh hnd
    have h2 : pv.1 ∉ keysA acc := hfresh pv.1 (List.mem_cons_self _ _)
    rw [List.foldl_cons]
    show tl.foldl (fun acc pv => setA acc pv.1 pv.2) (setA acc pv.1 pv.2) = acc ++ pv :: tl
    rw [setA_of_not_mem acc pv.1 pv.2 h2, Prod.mk.eta]
    have hfresh' : ∀ k ∈ keysA tl, k ∉ keysA (acc ++ [pv]) := by
      intro k hk
      rw [keysA_append, List.mem_append]
      rintro (hc | hc)
      · exact hfresh k (List.mem_cons_of_mem _ hk) hc
      · rw [keysA_cons, keysA_nil] at hc
        rcases List.mem_singleton.mp hc with h
        rw [List.nodup_cons] at hnd
        exact hnd.1 (h ▸ hk)
    rw [ih (acc ++ [pv]) hfresh' hnd.of_cons, List.append_assoc, List.singleton_append]

/-! ### The engine under a registry that answers nothing -/

theorem resolve_version_absent (pkg spec : String) :
    resolve_version (fun _ => none) pkg spec = spec := rfl

theorem pass2step_absent (st : DepMap × List String) (pkg : String) :
    pass2step (fun _ => none) st pkg = .ok st := rfl

theorem foldlM_pass2step_absent (L : List String) :
    ∀ st : DepMap × List String, L.foldlM (pass2step (fun _ => none)) st = .ok st := by
  induction L with
  | nil => intro st; rfl
  | cons p tl ih =>
    intro st
    rw [List.foldlM_cons, pass2step_absent]
    exact ih st

/-! ### The claims -/

/-- C1, counterexample: in the end-to-end scenario the claim demands an
empty `compatibility_warnings` list, but the single pass-1 warning for
`next` ends in "for better compatibility" and is therefore also collected
into `compatibility_warnings` by the substring partition. -/
theorem claim_C1_counterexample :
    (analyze_dependencies regC1 depsC1).map AnalysisReport.compatibility_warnings ≠
      Except.ok [] := by decide

/-- C1, amended: for the input map of `next` at caret 14.0.0 and `react`
at caret 18.2.0 against a registry listing exactly 14.0.0 and 14.1.0 for
`next` (no peer dependencies) and 18.2.0 for `react`,
`analyze_dependencies` returns the updated map with `next` at caret 14.1.0
and `react` unchanged, exactly one warning about `next` in
`version_updates`, and that same warning (whose text contains
"compatibility") as the sole element of `compatibility_warnings`. -/
theorem claim_C1_amended :
    analyze_dependencies regC1 depsC1 =
      .ok
        { updated_dependencies := [("next", "^14.1.0"), ("react", "^18.2.0")]
          compatibility_warnings := [warnC1]
          version_updates := [warnC1]
          security_warnings := []
          recommendations := [] } := by decide

/-- C2, code bug: with the single dependency `a` pinned at 1.0.0 and a
registry whose metadata for `a` is a non-empty object without a
`"versions"` key, `analyze_dependencies` raises (the unguarded
`pkg_info["versions"]` subscript in pass 2 of `check_compatibility`)
instead of returning a best-effort report as the spec requires. -/
theorem claim_C2_bug :
    analyze_dependencies regC2 [("a", "1.0.0")] = .error "KeyError: versions" := by decide

/-- C3: for every package name and every version specifier string, when
the registry client answers "absent" for the package, `resolve_version`
returns the input specifier unchanged. -/
theorem claim_C3 (reg : Registry) (package_name version_spec : String)
    (h : reg package_name = none) :
    resolve_version reg package_name version_spec = version_spec := by
  simp only [resolve_version, h]

/-- C3, witness: a registry that answers nothing leaves even a malformed
specifier unchanged. -/
theorem claim_C3_witness :
    (fun _ => none : Registry) "left-pad" = none ∧
      resolve_version (fun _ => none) "left-pad" "not-a-version" = "not-a-version" :=
  ⟨rfl, claim_C3 (fun _ => none) "left-pad" "not-a-version" rfl⟩

/-- C4: against metadata listing exactly 5.8.0, 5.8.5, 5.9.0 and 6.0.0,
the caret specifier on 5.8.0 resolves to caret 5.9.0 (the maximum version
at least 5.8.0 and below 6.0.0) and the tilde specifier on 5.8.0 resolves
to caret 5.8.5 (the maximum version at least 5.8.0 and below 5.9.0). -/
theorem claim_C4 :
    resolve_version regC4 "pkg" "^5.8.0" = "^5.9.0" ∧
      resolve_version regC4 "pkg" "~5.8.0" = "^5.8.5" := by decide

def peerWarnC5 : String :=
  "Updated b to 2.1.0 to satisfy peer dependency requirement from a (>=2.0.0)"

/-- C5: with `a` resolved to a version whose metadata requires peer `b` at
`>=2.0.0`, `b` resolved at 1.0.0, and `b` offered at 1.0.0, 2.0.0 and
2.1.0, `check_compatibility` rewrites `b` to caret 2.1.0 (the maximum
matching version, satisfying the requirement) and emits one warning naming
both `a` and `b`. -/
theorem claim_C5 :
    check_compatibility regC5 depsC5 = .ok ([("a", "^1.0.0"), ("b", "^2.1.0")], [peerWarnC5]) ∧
      semverMatchv "2.1.0" ">=2.0.0" = some true ∧
      strContains "a" peerWarnC5 = true ∧ strContains "b" peerWarnC5 = true := by decide

/-- C6, counterexample: the claim says that after a closest-version
substitute is adopted, the adopted version's peer dependencies are read
and processed; in the code the `continue` that follows the adoption skips
peer processing, so the engine differs from the claim's description on a
registry where the substitute declares an unsatisfied peer constraint. -/
theorem claim_C6_counterexample :
    ¬ ∀ (reg : Registry) (deps : DepMap),
        check_compatibility reg deps = check_compatibility_claimC6 reg deps := by
  intro h
  exact absurd (h regC6 depsC6) (by decide)

/-- C6, amended: in pass 2, for every package whose stripped resolved
version key is absent from the listed versions, the listed version at
least that key whose major version is numerically closest to the key's
major is adopted with the closest-available-version warning, and peer
processing for the package is skipped in every such case — also when a
substitute is adopted, whose peer dependencies are not read. -/
theorem claim_C6_amended (reg : Registry) (deps : DepMap) :
    check_compatibility reg deps = check_compatibility_amendedC6 reg deps := rfl

/-- C7, counterexample: the input map pinning `a` exactly at 1.0.0, with
the registry listing exactly 1.0.0 for `a` (no peer dependencies, so
1.0.0 is the best match of its own specifier and every peer constraint is
vacuously satisfied), is not returned unchanged with no warnings:
resolution rewrites the pin to caret form and warns. -/
theorem claim_C7_counterexample :
    check_compatibility regC7 [("a", "1.0.0")] ≠ .ok ([("a", "1.0.0")], []) := by decide

/-- C7, amended: for every dependency map (with its package names unique,
as in a Python dictionary) and registry such that resolution is a fixed
point on every entry (in particular the specifier is already in resolved
caret form), every entry's stripped version key is listed in its package's
metadata, and every declared peer constraint between packages of the map
is already satisfied, `check_compatibility` returns the input map
unchanged with an empty warnings list. -/
theorem claim_C7_amended (reg : Registry) (deps : DepMap)
    (hnd : (keysA deps).Nodup)
    (hres : ∀ pv ∈ deps, resolve_version reg pv.1 pv.2 = pv.2)
    (hsat : ∀ pkg ∈ keysA deps, SatisfiedAt reg deps pkg) :
    check_compatibility reg deps = .ok (deps, []) := by
  simp only [check_compatibility, pass2]
  rw [pass1_copy reg deps hres hnd]
  exact foldlM_pass2step_noop reg deps [] (keysA deps) hsat

/-- C7, witness: a one-entry map already in resolved form passes through
`check_compatibility` unchanged. -/
theorem claim_C7_witness :
    check_compatibility regC7 [("a", "^1.0.0")] = .ok ([("a", "^1.0.0")], []) :=
  claim_C7_amended regC7 [("a", "^1.0.0")] (by decide)
    (by
      intro pv hpv
      rw [List.mem_singleton] at hpv
      subst hpv
      decide)
    (by
      intro pkg hpkg
      rw [keysA_cons, keysA_nil, List.mem_singleton] at hpkg
      subst hpkg
      refine ⟨⟨false, some [("1.0.0", noPeers)]⟩, [("1.0.0", noPeers)], noPeers, by decide,
        rfl, by decide, ?_⟩
      intro peer hp
      exact absurd hp (List.not_mem_nil peer))

/-- C8: starting from an empty cache, when the network answers the first
request, a second `get_package_info` for the same package less than the
TTL after the first performs no network call and returns the cached
metadata (one fetch across the two calls), while a call issued at least
the TTL after the cached entry's timestamp performs a second fetch. -/
theorem claim_C8 (net : Network) (package_name : String) (t1 t2 t3 : Nat)
    (info : PackageInfo)
    (hfetch : net package_name t1 = some info)
    (h12 : t2 - t1 < cacheTTL)
    (h13 : cacheTTL ≤ t3 - t1) :
    (get_package_info net t1 [] package_name).networkCalls = 1 ∧
    (get_package_info net t2 (get_package_info net t1 [] package_name).cache
        package_name).networkCalls = 0 ∧
    (get_package_info net t2 (get_package_info net t1 [] package_name).cache
        package_name).result = some info ∧
    (get_package_info net t3 (get_package_info net t1 [] package_name).cache
        package_name).networkCalls = 1 := by
  have h1 : get_package_info net t1 [] package_name =
      ⟨some info, [(package_name, ⟨info, t1⟩)], 1⟩ := by
    rw [get_package_info]
    simp only [lookupA, fetchFromNet, hfetch]
    rfl
  have hlk : lookupA [(package_name, (⟨info, t1⟩ : CacheEntry))] package_name =
      some ⟨info, t1⟩ := by
    rw [lookupA, if_pos rfl]
  have h2 : get_package_info net t2 [(package_name, (⟨info, t1⟩ : CacheEntry))] package_name =
      ⟨some info, [(package_name, ⟨info, t1⟩)], 0⟩ := by
    rw [get_package_info, hlk]
    dsimp only
    rw [if_pos h12]
  have h3 : (get_package_info net t3 [(package_name, (⟨info, t1⟩ : CacheEntry))]
      package_name).networkCalls = 1 := by
    rw [get_package_info, hlk]
    dsimp only
    rw [if_neg (Nat.not_lt.mpr h13)]
    cases hnet : net package_name t3 <;> simp [fetchFromNet, hnet]
  rw [h1]
  exact ⟨rfl, by rw [h2], by rw [h2], h3⟩

def infoC8 : PackageInfo := ⟨false, some [("1.0.0", noPeers)]⟩

/-- C8, witness: with a network that always answers, calls at times 0,
1800 and 3600 seconds show the one-fetch-then-cache and refetch-on-expiry
behaviour. -/
theorem claim_C8_witness :
    (fun _ _ => some infoC8 : Network) "react" 0 = some infoC8 ∧
    1800 - 0 < cacheTTL ∧ cacheTTL ≤ 3600 - 0 ∧
    ((get_package_info (fun _ _ => some infoC8) 0 [] "react").networkCalls = 1 ∧
      (get_package_info (fun _ _ => some infoC8) 1800
          (get_package_info (fun _ _ => some infoC8) 0 [] "react").cache "react").networkCalls = 0 ∧
      (get_package_info (fun _ _ => some infoC8) 1800
          (get_package_info (fun _ _ => some infoC8) 0 [] "react").cache "react").result =
        some infoC8 ∧
      (get_package_info (fun _ _ => some infoC8) 3600
          (get_package_info (fun _ _ => some infoC8) 0 [] "react").cache "react").networkCalls = 1) :=
  ⟨rfl, by decide, by decide,
    claim_C8 (fun _ _ => some infoC8) "react" 0 1800 3600 infoC8 rfl (by decide) (by decide)⟩

/-- C9: for every input map and registry behaviour, whenever
`check_compatibility` returns a map (and whenever `analyze_dependencies`
returns a report) its key set is exactly the input map's key set — no
package is ever added or removed. -/
theorem claim_C9 :
    (∀ (reg : Registry) (deps out : DepMap) (ws : List String),
        check_compatibility reg deps = .ok (out, ws) →
        ∀ k, k ∈ keysA out ↔ k ∈ keysA deps) ∧
    (∀ (reg : Registry) (deps : DepMap) (r : AnalysisReport),
        analyze_dependencies reg deps = .ok r →
        ∀ k, k ∈ keysA r.updated_dependencies ↔ k ∈ keysA deps) := by
  have main : ∀ (reg : Registry) (deps out : DepMap) (ws : List String),
      check_compatibility reg deps = .ok (out, ws) →
      ∀ k, k ∈ keysA out ↔ k ∈ keysA deps := by
    intro reg deps out ws hok k
    simp only [check_compatibility, pass2] at hok
    have hkeys := foldlM_pass2step_keys reg (keysA (pass1 reg deps).1)
      ((pass1 reg deps).1, (pass1 reg deps).2) (out, ws) (fun pkg hp => hp) hok
    have : keysA out = keysA (pass1 reg deps).1 := hkeys
    rw [this]
    exact mem_keysA_pass1 reg deps k
  refine ⟨main, ?_⟩
  intro reg deps r hr k
  rw [analyze_dependencies] at hr
  cases hcc : check_compatibility reg deps with
  | error e =>
    rw [hcc] at hr
    cases hr
  | ok p =>
    obtain ⟨out, ws⟩ := p
    rw [hcc] at hr
    have hru : r.updated_dependencies = out := by
      cases hr
      rfl
    rw [hru]
    exact main reg deps out ws hcc k

/-- C9, witness: in the end-to-end scenario the returned map has the same
key set as the input. -/
theorem claim_C9_witness :
    check_compatibility regC1 depsC1 =
        .ok ([("next", "^14.1.0"), ("react", "^18.2.0")], [warnC1]) ∧
      ("react" ∈ keysA [("next", "^14.1.0"), ("react", "^18.2.0")] ↔ "react" ∈ keysA depsC1) :=
  ⟨by decide,
    claim_C9.1 regC1 depsC1 [("next", "^14.1.0"), ("react", "^18.2.0")] [warnC1]
      (by decide) "react"⟩

/-- C10: for every input map (with unique keys, as in a Python
dictionary), the simple variant's `analyze_dependencies` returns the input
map as `updated_dependencies` and no `compatibility_warnings`, which is
exactly what the full engine's `analyze_dependencies` produces for those
two fields when the registry answers "absent" for every package. -/
theorem claim_C10 (deps : DepMap) (hnd : (keysA deps).Nodup) :
    analyze_dependencies_simple deps = (deps, []) ∧
      (analyze_dependencies (fun _ => none) deps).map
          (fun r => (r.updated_dependencies, r.compatibility_warnings)) =
        .ok (analyze_dependencies_simple deps) := by
  have hsimple : analyze_dependencies_simple deps = (deps, []) := by
    rw [analyze_dependencies_simple, foldl_copyStep deps [] (by simp) hnd, List.nil_append]
  refine ⟨hsimple, ?_⟩
  have hcc : check_compatibility (fun _ => none) deps = .ok (deps, []) := by
    simp only [check_compatibility, pass2]
    rw [pass1_copy (fun _ => none) deps (fun pv _ => rfl) hnd]
    exact foldlM_pass2step_absent (keysA deps) (deps, [])
  rw [hsimple, analyze_dependencies, hcc]
  simp [Except.map]

/-- C10, witness: the two variants coincide on a concrete one-entry map. -/
theorem claim_C10_witness :
    analyze_dependencies_simple [("left-pad", "1.0.0")] = ([("left-pad", "1.0.0")], []) ∧
      (analyze_dependencies (fun _ => none) [("left-pad", "1.0.0")]).map
          (fun r => (r.updated_dependencies, r.compatibility_warnings)) =
        .ok (analyze_dependencies_simple [("left-pad", "1.0.0")]) :=
  claim_C10 [("left-pad", "1.0.0")] (by decide)
